import Mathlib

/-!
Verification development for the "Null" inline code-completion assistant.

The development shallowly embeds the repository's core post-processing and
context-assembly engine:

* `CF` — the full `CompletionFormatter` variant (ordered line-break rule
  tables, per-language overrides, the layered duplication resolver
  `removeDuplicateKeywords`, the secondary `applyFormattingRules` /
  `shouldAddLineBreak` pass, and the `formatWithRule` output builder);
* `CFSimple` — the reduced `CompletionFormatter` variant of
  `src/completionFormatter.ts`;
* `CA` — the `ContextAwareness` manager of `src/contextAwareness.ts`
  (sliding window, neighborhood snapshot, accepted-suggestion log).

Strings are modelled as `List Char`.  The JavaScript `RegExp` patterns the
source relies on are embedded by a small executable backtracking matcher
(`RE`) with ordered alternation, greedy quantifiers, capture groups, word
boundaries and an ignore-case flag, i.e. the fragment of JS regex semantics
the source's patterns use.
-/

/-- Strings of the embedded program: JavaScript strings as lists of chars. -/
abbrev Str := List Char

/-- Coerce a Lean string literal to the embedded string type. -/
def str (s : String) : Str := s.data

/-- JavaScript's `\s` (ASCII fragment): space, tab, LF, VT, FF, CR. -/
def jsIsSpace (c : Char) : Bool :=
  c = ' ' || c = '\t' || c = '\n' || c = '\x0b' || c = '\x0c' || c = '\x0d'

/-- JavaScript's `\w`: ASCII letters, digits and underscore. -/
def isWordChar (c : Char) : Bool :=
  (decide ('a' ≤ c) && decide (c ≤ 'z')) ||
  (decide ('A' ≤ c) && decide (c ≤ 'Z')) ||
  (decide ('0' ≤ c) && decide (c ≤ '9')) || c = '_'

/-- JavaScript `String.prototype.trimLeft`. -/
def trimLeft (s : Str) : Str := s.dropWhile jsIsSpace

/-- JavaScript `String.prototype.trim`. -/
def jsTrim (s : Str) : Str := ((s.dropWhile jsIsSpace).reverse.dropWhile jsIsSpace).reverse

/-- JavaScript `text.split('\n')`: always at least one piece, one more piece
per newline character. -/
def splitLines (s : Str) : List Str :=
  match s with
  | [] => [[]]
  | c :: rest =>
    if c = '\n' then [] :: splitLines rest
    else
      match splitLines rest with
      | [] => [[c]]
      | h :: t => (c :: h) :: t

/-- Join lines with a newline separator and no trailing newline (the inverse
of `splitLines` on newline-free lines). -/
def joinNl : List Str → Str
  | [] => []
  | [l] => l
  | l :: l2 :: ls => l ++ '\n' :: joinNl (l2 :: ls)

/-- Concatenate lines, each followed by a newline. -/
def concatNl : List Str → Str
  | [] => []
  | l :: ls => l ++ '\n' :: concatNl ls

/-- Slice of the characters in positions `[a, b)`. -/
def strSlice (s : Str) (a b : Nat) : Str := (s.drop a).take (b - a)

/-- One atom of a JS regex character class. -/
inductive CAtom
  | ch (c : Char)
  | word
  | space
  | digit
  | dot
deriving DecidableEq

/-- Whether one class atom accepts a character (`ci` = ignore-case flag). -/
def catomTest (ci : Bool) (a : CAtom) (c : Char) : Bool :=
  match a with
  | .ch d => if ci then d.toLower = c.toLower else d = c
  | .word => isWordChar c
  | .space => jsIsSpace c
  | .digit => decide ('0' ≤ c) && decide (c ≤ '9')
  | .dot => !(c = '\n' || c = '\x0d' || c.toNat = 0x2028 || c.toNat = 0x2029)

/-- The fragment of JS regexes the source uses: char classes, sequencing,
ordered alternation, greedy `*` `+` `?`, numbered capture groups, the `^`,
`$` and `\b` assertions. -/
inductive RE
  | eps
  | cls (atoms : List CAtom) (neg : Bool)
  | seq (a b : RE)
  | alt (a b : RE)
  | star (r : RE)
  | plus (r : RE)
  | opt (r : RE)
  | grp (i : Nat) (r : RE)
  | bol
  | eol
  | wb
deriving DecidableEq

/-- Captured spans, most recent first: `(group index, start, stop)`. -/
abbrev Caps := List (Nat × Nat × Nat)

/-- Word-characterness of the position just before / at `pos` differs: the
JS `\b` assertion. -/
def isBoundary (s : List Char) (pos : Nat) : Bool :=
  let a := match pos with
    | 0 => false
    | p + 1 => match s.get? p with
      | some c => isWordChar c
      | none => false
  let b := match s.get? pos with
    | some c => isWordChar c
    | none => false
  a != b

/-- Backtracking matcher in continuation-passing style.  Alternation is
ordered (left first), quantifiers are greedy, and a quantifier iteration that
consumes nothing terminates the loop, matching JS `RegExp` behavior on the
embedded patterns.  `fuel` bounds the call depth; every concrete use supplies
enough fuel for the patterns at hand. -/
def mtch : Nat → List Char → Bool → RE → Nat → Caps →
    (Nat → Caps → Option (Nat × Caps)) → Option (Nat × Caps)
  | 0, _, _, _, _, _, _ => none
  | Nat.succ fuel, s, ci, r, pos, caps, k =>
    match r with
    | .eps => k pos caps
    | .cls atoms neg =>
      match s.get? pos with
      | some c =>
        let t := atoms.any (fun a => catomTest ci a c)
        if (if neg then !t else t) then k (pos + 1) caps else none
      | none => none
    | .seq a b =>
      mtch fuel s ci a pos caps (fun p cp => mtch fuel s ci b p cp k)
    | .alt a b =>
      match mtch fuel s ci a pos caps k with
      | some res => some res
      | none => mtch fuel s ci b pos caps k
    | .star r' =>
      match mtch fuel s ci r' pos caps
          (fun p cp => if p = pos then none else mtch fuel s ci (.star r') p cp k) with
      | some res => some res
      | none => k pos caps
    | .plus r' =>
      mtch fuel s ci r' pos caps (fun p cp => mtch fuel s ci (.star r') p cp k)
    | .opt r' =>
      match mtch fuel s ci r' pos caps k with
      | some res => some res
      | none => k pos caps
    | .grp i r' =>
      mtch fuel s ci r' pos caps (fun p cp => k p ((i, pos, p) :: cp))
    | .bol => if pos = 0 then k pos caps else none
    | .eol => if pos = s.length then k pos caps else none
    | .wb => if isBoundary s pos then k pos caps else none

/-- Fuel that is ample for every embedded pattern on a given subject. -/
def reFuel (s : Str) : Nat := 1000 * (s.length + 4)

/-- Try a match starting at `pos`, then at `pos+1`, …; `budget` counts the
remaining later start positions. -/
def searchFrom (s : Str) (ci : Bool) (r : RE) : Nat → Nat → Option (Nat × Nat × Caps)
  | pos, budget =>
    match mtch (reFuel s) s ci r pos [] (fun p cp => some (p, cp)) with
    | some (e, cp) => some (pos, e, cp)
    | none =>
      match budget with
      | 0 => none
      | b + 1 => searchFrom s ci r (pos + 1) b

/-- JS `regex.exec(s)` / `s.match(regex)`: the leftmost match with its
start, end and captures. -/
def reSearch (ci : Bool) (r : RE) (s : Str) : Option (Nat × Nat × Caps) :=
  searchFrom s ci r 0 s.length

/-- A JS `RegExp` literal: a pattern plus its ignore-case flag. -/
structure JSRegex where
  re : RE
  ci : Bool := false
deriving DecidableEq

/-- JS `regex.test(s)`. -/
def reTest (p : JSRegex) (s : Str) : Bool := (reSearch p.ci p.re s).isSome

/-- Value of capture group `i` of a match (`none` = JS `undefined`). -/
def capLookup (caps : Caps) (i : Nat) : Option (Nat × Nat) :=
  (caps.find? (fun t => t.1 = i)).map (fun t => t.2)

/-- Sequence a list of regexes. -/
def rr (l : List RE) : RE := l.foldr RE.seq RE.eps

/-- Ordered alternation of a list of regexes (first listed tried first). -/
def ror : List RE → RE
  | [] => RE.eps
  | [r] => r
  | r :: r2 :: rs => RE.alt r (ror (r2 :: rs))

/-- A literal string as a regex. -/
def rl (s : String) : RE := rr (s.data.map (fun c => RE.cls [CAtom.ch c] false))

/-- A positive character class. -/
def rc (atoms : List CAtom) : RE := RE.cls atoms false

/-- A negated character class. -/
def rnc (atoms : List CAtom) : RE := RE.cls atoms true

/-- `\s*` -/
def ws0 : RE := RE.star (rc [CAtom.space])

/-- `\s+` -/
def ws1 : RE := RE.plus (rc [CAtom.space])

/-- `\w+` -/
def wd1 : RE := RE.plus (rc [CAtom.word])

/-- `\w*` -/
def wd0 : RE := RE.star (rc [CAtom.word])

/-- `.*` -/
def any0 : RE := RE.star (rc [CAtom.dot])

/-- `.` as a regex. -/
def rdot : RE := rc [CAtom.dot]

namespace CF

/-!
Embedding of the full `CompletionFormatter` class (the variant with
language-aware rule tables and the duplication resolver).  Rule names follow
the comments labelling each entry of the `lineBreakRules` array.
-/

/-- A `LineBreakRule` record: pattern, break flag, optional indent flag
(JS `undefined` modelled as `false`, the only way the code reads it). -/
structure LineBreakRule where
  pattern : JSRegex
  shouldBreak : Bool
  indentNextLine : Bool := false
deriving DecidableEq

/-- `/^(import|from|using|require|include|#include)\s+.*/` -/
def importRule : LineBreakRule :=
  { pattern := ⟨rr [RE.bol,
      RE.grp 1 (ror [rl "import", rl "from", rl "using", rl "require", rl "include", rl "#include"]),
      ws1, any0], false⟩,
    shouldBreak := true }

/-- `/^(package|namespace)\s+.*/` -/
def packageRule : LineBreakRule :=
  { pattern := ⟨rr [RE.bol, RE.grp 1 (ror [rl "package", rl "namespace"]), ws1, any0], false⟩,
    shouldBreak := true }

/-- Function/Method declarations (multiple languages). -/
def functionRule : LineBreakRule :=
  { pattern := ⟨rr [RE.bol,
      RE.opt (RE.grp 1 (rr [rl "async", ws1])),
      RE.star (RE.grp 2 (ror [rl "function", rl "func", rl "def", rl "fn", rl "fun",
        rl "method", rl "sub", rl "proc", rl "procedure", rl "private", rl "public",
        rl "protected", rl "internal", rl "override", rl "virtual", rl "static", rl "final"])),
      ws0, RE.plus (rc [CAtom.word, CAtom.ch '<', CAtom.ch '>']), ws0,
      rl "(", any0, rl ")", ws0,
      RE.opt (RE.grp 3 (ror [rl "\x7b", rl ":", rl "â†’", rl "->"])),
      ws0, RE.eol], false⟩,
    shouldBreak := true, indentNextLine := true }

/-- `/^.*=>\s*({)?\s*$/` -/
def lambdaRule : LineBreakRule :=
  { pattern := ⟨rr [RE.bol, any0, rl "=>", ws0, RE.opt (RE.grp 1 (rl "\x7b")), ws0, RE.eol], false⟩,
    shouldBreak := true, indentNextLine := true }

/-- `/^(class|interface|struct|enum|trait|type|record|data class)\s+.*({|\:)?\s*$/` -/
def classRule : LineBreakRule :=
  { pattern := ⟨rr [RE.bol,
      RE.grp 1 (ror [rl "class", rl "interface", rl "struct", rl "enum", rl "trait",
        rl "type", rl "record", rl "data class"]),
      ws1, any0, RE.opt (RE.grp 2 (ror [rl "\x7b", rl ":"])), ws0, RE.eol], false⟩,
    shouldBreak := true, indentNextLine := true }

/-- Control flow statements. -/
def controlRule : LineBreakRule :=
  { pattern := ⟨rr [RE.bol,
      RE.grp 1 (ror [rl "if", rl "else", rl "elif", rl "else if", rl "for", rl "foreach",
        rl "while", rl "do", rl "switch", rl "case", rl "catch", rl "finally", rl "try",
        rl "unless", rl "when", rl "match", rl "select"]),
      ws0, RE.opt (RE.grp 2 (rr [rl "(", any0, rl ")"])), ws0,
      RE.opt (RE.grp 3 (ror [rl "\x7b", rl ":"])), ws0, RE.eol], false⟩,
    shouldBreak := true, indentNextLine := true }

/-- `/^.*{[\s\r\n]*$/` -/
def blockRule : LineBreakRule :=
  { pattern := ⟨rr [RE.bol, any0, rl "\x7b",
      RE.star (rc [CAtom.space, CAtom.ch '\x0d', CAtom.ch '\n']), RE.eol], false⟩,
    shouldBreak := true, indentNextLine := true }

/-- `/^[\s\t]*@[\w\.]+([\s\t]*\(.*\))?\s*$/` -/
def decoratorRule : LineBreakRule :=
  { pattern := ⟨rr [RE.bol, RE.star (rc [CAtom.space, CAtom.ch '\t']), rl "@",
      RE.plus (rc [CAtom.word, CAtom.ch '.']),
      RE.opt (RE.grp 1 (rr [RE.star (rc [CAtom.space, CAtom.ch '\t']), rl "(", any0, rl ")"])),
      ws0, RE.eol], false⟩,
    shouldBreak := true }

/-- `/.*[+\-*/=<>?:|&%]\s*$/` -/
def operatorRule : LineBreakRule :=
  { pattern := ⟨rr [any0,
      rc [CAtom.ch '+', CAtom.ch '-', CAtom.ch '*', CAtom.ch '/', CAtom.ch '=',
        CAtom.ch '<', CAtom.ch '>', CAtom.ch '?', CAtom.ch ':', CAtom.ch '|',
        CAtom.ch '&', CAtom.ch '%'],
      ws0, RE.eol], false⟩,
    shouldBreak := true }

/-- `/^.*[\[\{]\s*$/` -/
def arrayInitRule : LineBreakRule :=
  { pattern := ⟨rr [RE.bol, any0, rc [CAtom.ch '[', CAtom.ch '\x7b'], ws0, RE.eol], false⟩,
    shouldBreak := true, indentNextLine := true }

/-- `/^.*(SELECT|INSERT|UPDATE|DELETE|CREATE|ALTER|DROP|MERGE)\s*.*$/i` -/
def sqlRule : LineBreakRule :=
  { pattern := ⟨rr [RE.bol, any0,
      RE.grp 1 (ror [rl "SELECT", rl "INSERT", rl "UPDATE", rl "DELETE", rl "CREATE",
        rl "ALTER", rl "DROP", rl "MERGE"]),
      ws0, any0, RE.eol], true⟩,
    shouldBreak := true, indentNextLine := true }

/-- `/\.(then|catch|finally|map|filter|reduce)\(\s*$/` -/
def promiseRule : LineBreakRule :=
  { pattern := ⟨rr [rl ".",
      RE.grp 1 (ror [rl "then", rl "catch", rl "finally", rl "map", rl "filter", rl "reduce"]),
      rl "(", ws0, RE.eol], false⟩,
    shouldBreak := true, indentNextLine := true }

/-- `/^.*\.\w+\(\)\s*$/` -/
def builderRule : LineBreakRule :=
  { pattern := ⟨rr [RE.bol, any0, rl ".", wd1, rl "()", ws0, RE.eol], false⟩,
    shouldBreak := true }

/-- `/^.*<[^>]+>\s*$/` -/
def htmlRule : LineBreakRule :=
  { pattern := ⟨rr [RE.bol, any0, rl "<", RE.plus (rnc [CAtom.ch '>']), rl ">", ws0, RE.eol], false⟩,
    shouldBreak := true, indentNextLine := true }

/-- `/^(private|public|protected|internal|static|final|const|let|var|my|our)\s+[\w<>]+\s+\w+\s*=?\s*$/` -/
def propertyRule : LineBreakRule :=
  { pattern := ⟨rr [RE.bol,
      RE.grp 1 (ror [rl "private", rl "public", rl "protected", rl "internal", rl "static",
        rl "final", rl "const", rl "let", rl "var", rl "my", rl "our"]),
      ws1, RE.plus (rc [CAtom.word, CAtom.ch '<', CAtom.ch '>']), ws1, wd1, ws0,
      RE.opt (rl "="), ws0, RE.eol], false⟩,
    shouldBreak := true }

/-- `/^[\s\t]*(\/\*\*|###|\'\'\').*$/` -/
def docCommentRule : LineBreakRule :=
  { pattern := ⟨rr [RE.bol, RE.star (rc [CAtom.space, CAtom.ch '\t']),
      RE.grp 1 (ror [rl "/**", rl "###", rl "\x27\x27\x27"]), any0, RE.eol], false⟩,
    shouldBreak := true, indentNextLine := true }

/-- Template literals: pattern ending in a backtick. -/
def templateRule : LineBreakRule :=
  { pattern := ⟨rr [RE.bol, any0, rl "\x60", ws0, RE.eol], false⟩,
    shouldBreak := true, indentNextLine := true }

/-- `/^.*\[\s*for\s+.*$/` -/
def comprehensionRule : LineBreakRule :=
  { pattern := ⟨rr [RE.bol, any0, rl "[", ws0, rl "for", ws1, any0, RE.eol], false⟩,
    shouldBreak := true, indentNextLine := true }

/-- `/^.*(async|await)\s+.*$/` -/
def asyncAwaitRule : LineBreakRule :=
  { pattern := ⟨rr [RE.bol, any0, RE.grp 1 (ror [rl "async", rl "await"]), ws1, any0, RE.eol], false⟩,
    shouldBreak := true }

/-- `/^(try|catch|finally|rescue|ensure|except)\s*.*$/` -/
def exceptionRule : LineBreakRule :=
  { pattern := ⟨rr [RE.bol,
      RE.grp 1 (ror [rl "try", rl "catch", rl "finally", rl "rescue", rl "ensure", rl "except"]),
      ws0, any0, RE.eol], false⟩,
    shouldBreak := true, indentNextLine := true }

/-- `/^(if|elif|else|case|while|until|for)\s+.*;\s*do\s*$/` -/
def shellRule : LineBreakRule :=
  { pattern := ⟨rr [RE.bol,
      RE.grp 1 (ror [rl "if", rl "elif", rl "else", rl "case", rl "while", rl "until", rl "for"]),
      ws1, any0, rl ";", ws0, rl "do", ws0, RE.eol], false⟩,
    shouldBreak := true, indentNextLine := true }

/-- `/^with\s+.*:\s*$/` -/
def withRule : LineBreakRule :=
  { pattern := ⟨rr [RE.bol, rl "with", ws1, any0, rl ":", ws0, RE.eol], false⟩,
    shouldBreak := true, indentNextLine := true }

/-- `/^.*=>\s*$/` -/
def rustMatchRule : LineBreakRule :=
  { pattern := ⟨rr [RE.bol, any0, rl "=>", ws0, RE.eol], false⟩,
    shouldBreak := true, indentNextLine := true }

/-- `/^(defer|go)\s+.*$/` -/
def deferGoRule : LineBreakRule :=
  { pattern := ⟨rr [RE.bol, RE.grp 1 (ror [rl "defer", rl "go"]), ws1, any0, RE.eol], false⟩,
    shouldBreak := true }

/-- `/^.[^{]*{\s*$/` -/
def cssRule : LineBreakRule :=
  { pattern := ⟨rr [RE.bol, rdot, RE.star (rnc [CAtom.ch '\x7b']), rl "\x7b", ws0, RE.eol], false⟩,
    shouldBreak := true, indentNextLine := true }

/-- `/^(var|let|const|dim|private|public|protected)\s+\w+\s*=\s*$/` -/
def varInitRule : LineBreakRule :=
  { pattern := ⟨rr [RE.bol,
      RE.grp 1 (ror [rl "var", rl "let", rl "const", rl "dim", rl "private", rl "public", rl "protected"]),
      ws1, wd1, ws0, rl "=", ws0, RE.eol], false⟩,
    shouldBreak := true, indentNextLine := true }

/-- The `lineBreakRules` array, in declaration order. -/
def lineBreakRules : List LineBreakRule :=
  [importRule, packageRule, functionRule, lambdaRule, classRule, controlRule,
   blockRule, decoratorRule, operatorRule, arrayInitRule, sqlRule, promiseRule,
   builderRule, htmlRule, propertyRule, docCommentRule, templateRule,
   comprehensionRule, asyncAwaitRule, exceptionRule, shellRule, withRule,
   rustMatchRule, deferGoRule, cssRule, varInitRule]

/-- Python entry of `languageSpecificRules`:
`/^def\s+\w+\s*\(.*\)\s*->\s*.*:\s*$/`. -/
def pythonArrowDefRule : LineBreakRule :=
  { pattern := ⟨rr [RE.bol, rl "def", ws1, wd1, ws0, rl "(", any0, rl ")", ws0,
      rl "->", ws0, any0, rl ":", ws0, RE.eol], false⟩,
    shouldBreak := true, indentNextLine := true }

/-- Rust entry of `languageSpecificRules`:
`/^impl(\s+\w+)?\s+for\s+\w+\s*.*\s*$/`. -/
def rustImplForRule : LineBreakRule :=
  { pattern := ⟨rr [RE.bol, rl "impl", RE.opt (RE.grp 1 (rr [ws1, wd1])), ws1,
      rl "for", ws1, wd1, ws0, any0, ws0, RE.eol], false⟩,
    shouldBreak := true, indentNextLine := true }

/-- The `languageSpecificRules` dictionary; a missing key yields `[]`
(`languageSpecificRules[languageId] || []`). -/
def languageSpecificRules (languageId : String) : List LineBreakRule :=
  if languageId = "python" then [pythonArrowDefRule]
  else if languageId = "rust" then [rustImplForRule]
  else []

end CF

namespace CF

/-- The reserved-word list of `removeDuplicateKeywords`, in source order
(duplicates included). -/
def keywords : List Str :=
  [str "def", str "class", str "function", str "fun", str "fn", str "func",
   str "method", str "proc", str "sub",
   str "import", str "from", str "require", str "include", str "use", str "uses",
   str "using", str "extern",
   str "public", str "private", str "protected", str "internal", str "friend",
   str "final", str "sealed",
   str "static", str "async", str "await", str "let", str "const", str "var",
   str "val", str "dim", str "auto",
   str "if", str "else", str "elif", str "elseif", str "unless", str "switch",
   str "case", str "match", str "when",
   str "while", str "for", str "foreach", str "do", str "until", str "loop",
   str "repeat", str "continue",
   str "try", str "catch", str "finally", str "rescue", str "ensure",
   str "except", str "raise", str "throw",
   str "return", str "yield", str "break", str "next", str "goto",
   str "package", str "namespace",
   str "interface", str "trait", str "struct", str "enum", str "record",
   str "type", str "typedef",
   str "implements", str "extends", str "override", str "virtual",
   str "abstract", str "super",
   str "this", str "self", str "base", str "new", str "delete",
   str "instanceof", str "sizeof",
   str "readonly", str "volatile", str "transient", str "synchronized", str "mutable",
   str "const", str "final", str "static", str "abstract", str "export", str "default",
   str "void", str "null", str "nil", str "undefined", str "None", str "true", str "false",
   str "int", str "float", str "double", str "string", str "char", str "bool", str "boolean",
   str "array", str "list", str "set", str "map", str "dict", str "tuple", str "vector",
   str "module", str "package", str "library", str "crate", str "gem", str "pod",
   str "export", str "extern", str "from", str "as", str "into", str "impl",
   str "lambda", str "where", str "select", str "group", str "by", str "having",
   str "map", str "filter", str "reduce", str "fold", str "pipe", str "compose",
   str "async", str "await", str "promise", str "future", str "task", str "go",
   str "select", str "insert", str "update", str "delete", str "create", str "alter",
   str "drop", str "table", str "view", str "index", str "trigger", str "procedure",
   str "props", str "state", str "context", str "ref", str "key", str "children",
   str "component", str "useState", str "useEffect", str "useContext", str "useRef",
   str "useCallback", str "useMemo", str "useReducer", str "useLayoutEffect",
   str "memo", str "forwardRef", str "Fragment", str "Suspense", str "lazy",
   str "componentDidMount", str "componentDidUpdate", str "componentWillUnmount",
   str "render", str "shouldComponentUpdate", str "getDerivedStateFromProps",
   str "getSnapshotBeforeUpdate", str "displayName", str "defaultProps",
   str "propTypes", str "contextType", str "Consumer", str "Provider"]

/-- One entry of a `functionPatterns` language list: the pattern and its
number of capture groups (JS gives `match.length = ng + 1`; the code reads
`match[match.length - 1]`, the capture of the highest-numbered group). -/
structure FnPat where
  re : RE
  ng : Nat
deriving DecidableEq

/-- `functionPatterns.python` -/
def pyPats : List FnPat :=
  [⟨rr [RE.bol, RE.opt (RE.grp 1 (rr [rl "async", ws1])), rl "def", ws1, RE.grp 2 wd1], 2⟩,
   ⟨rr [RE.bol, rl "class", ws1, RE.grp 1 wd1], 1⟩,
   ⟨rr [RE.bol, rl "@", wd1, ws0, RE.opt (RE.grp 1 (rr [rl "async", ws1])), rl "def", ws1, RE.grp 2 wd1], 2⟩]

/-- `functionPatterns.typescript` -/
def tsPats : List FnPat :=
  [⟨rr [RE.bol, RE.opt (RE.grp 1 (rr [rl "async", ws1])), rl "function", ws1, RE.grp 2 wd1], 2⟩,
   ⟨rr [RE.bol,
      RE.star (RE.grp 1 (ror [rl "private", rl "public", rl "protected", rr [rl "static", ws1]])),
      RE.opt (RE.grp 2 (rr [rl "async", ws1])), RE.grp 3 wd1, ws0, rl "("], 3⟩,
   ⟨rr [RE.bol, rl "interface", ws1, RE.grp 1 wd1], 1⟩,
   ⟨rr [RE.bol, rl "type", ws1, RE.grp 1 wd1], 1⟩,
   ⟨rr [RE.bol, rl "class", ws1, RE.grp 1 wd1], 1⟩,
   ⟨rr [RE.bol, rl "enum", ws1, RE.grp 1 wd1], 1⟩,
   ⟨rr [RE.bol, rl "const", ws1, RE.grp 1 wd1, ws0, rl "="], 1⟩,
   ⟨rr [RE.bol, rl "let", ws1, RE.grp 1 wd1, ws0, rl "="], 1⟩,
   ⟨rr [RE.bol, rl "var", ws1, RE.grp 1 wd1, ws0, rl "="], 1⟩]

/-- `functionPatterns.javascript` -/
def jsPats : List FnPat :=
  [⟨rr [RE.bol, RE.opt (RE.grp 1 (rr [rl "async", ws1])), rl "function", ws1, RE.grp 2 wd1], 2⟩,
   ⟨rr [RE.bol, rl "class", ws1, RE.grp 1 wd1], 1⟩,
   ⟨rr [RE.bol, RE.opt (RE.grp 1 (rr [rl "static", ws1])), RE.grp 2 (ror [rl "get", rl "set"]),
      ws1, RE.grp 3 wd1], 3⟩,
   ⟨rr [RE.bol, RE.grp 1 (ror [rl "const", rl "let", rl "var"]), ws1, RE.grp 2 wd1, ws0, rl "="], 2⟩]

/-- `functionPatterns.java` -/
def javaPats : List FnPat :=
  [⟨rr [RE.bol, RE.grp 1 (ror [rl "public", rl "private", rl "protected"]), ws1,
      RE.opt (RE.grp 2 (rr [rl "static", ws1])), RE.opt (RE.grp 3 (rr [rl "final", ws1])),
      wd1, RE.opt (RE.grp 4 (rr [ws0, rl "<", RE.plus (rnc [CAtom.ch '>']), rl ">"])),
      ws1, RE.grp 5 wd1, ws0, rl "("], 5⟩,
   ⟨rr [RE.bol, rl "class", ws1, RE.grp 1 wd1], 1⟩,
   ⟨rr [RE.bol, rl "interface", ws1, RE.grp 1 wd1], 1⟩,
   ⟨rr [RE.bol, rl "enum", ws1, RE.grp 1 wd1], 1⟩,
   ⟨rr [RE.bol, rl "@", wd1, ws0, RE.grp 1 wd1], 1⟩]

/-- `functionPatterns.kotlin` -/
def kotlinPats : List FnPat :=
  [⟨rr [RE.bol, rl "fun", ws1, RE.grp 1 wd1], 1⟩,
   ⟨rr [RE.bol, rl "class", ws1, RE.grp 1 wd1], 1⟩,
   ⟨rr [RE.bol, rl "object", ws1, RE.grp 1 wd1], 1⟩,
   ⟨rr [RE.bol, rl "interface", ws1, RE.grp 1 wd1], 1⟩,
   ⟨rr [RE.bol, rl "data", ws1, rl "class", ws1, RE.grp 1 wd1], 1⟩]

/-- `functionPatterns.rust` -/
def rustPats : List FnPat :=
  [⟨rr [RE.bol, rl "fn", ws1, RE.grp 1 wd1], 1⟩,
   ⟨rr [RE.bol, rl "struct", ws1, RE.grp 1 wd1], 1⟩,
   ⟨rr [RE.bol, rl "enum", ws1, RE.grp 1 wd1], 1⟩,
   ⟨rr [RE.bol, rl "trait", ws1, RE.grp 1 wd1], 1⟩,
   ⟨rr [RE.bol, rl "impl", ws1, RE.grp 1 wd1], 1⟩,
   ⟨rr [RE.bol, rl "type", ws1, RE.grp 1 wd1], 1⟩,
   ⟨rr [RE.bol, rl "pub", RE.opt (RE.grp 1 (rr [ws0, rl "(", RE.plus (rnc [CAtom.ch ')']), rl ")"])),
      ws1, rl "fn", ws1, RE.grp 2 wd1], 2⟩]

/-- `functionPatterns.go` -/
def goPats : List FnPat :=
  [⟨rr [RE.bol, rl "func", ws1, RE.grp 1 wd1], 1⟩,
   ⟨rr [RE.bol, rl "type", ws1, RE.grp 1 wd1], 1⟩,
   ⟨rr [RE.bol, rl "interface", ws1, RE.grp 1 wd1], 1⟩,
   ⟨rr [RE.bol, rl "struct", ws1, RE.grp 1 wd1], 1⟩]

/-- `functionPatterns.csharp` -/
def csharpPats : List FnPat :=
  [⟨rr [RE.bol, RE.grp 1 (ror [rl "public", rl "private", rl "protected", rl "internal"]), ws1,
      RE.opt (RE.grp 2 (rr [rl "static", ws1])), RE.opt (RE.grp 3 (rr [rl "async", ws1])),
      wd1, RE.opt (RE.grp 4 (rr [ws0, rl "<", RE.plus (rnc [CAtom.ch '>']), rl ">"])),
      ws1, RE.grp 5 wd1, ws0, rl "("], 5⟩,
   ⟨rr [RE.bol, rl "class", ws1, RE.grp 1 wd1], 1⟩,
   ⟨rr [RE.bol, rl "interface", ws1, RE.grp 1 wd1], 1⟩,
   ⟨rr [RE.bol, rl "enum", ws1, RE.grp 1 wd1], 1⟩,
   ⟨rr [RE.bol, rl "struct", ws1, RE.grp 1 wd1], 1⟩,
   ⟨rr [RE.bol, rl "record", ws1, RE.grp 1 wd1], 1⟩,
   ⟨rr [RE.bol, rl "[", RE.plus (rc [CAtom.word, CAtom.ch '.']), rl "]", ws0, RE.grp 1 wd1], 1⟩]

/-- `functionPatterns.php` -/
def phpPats : List FnPat :=
  [⟨rr [RE.bol, RE.grp 1 (ror [rl "public", rl "private", rl "protected"]), ws1,
      RE.opt (RE.grp 2 (rr [rl "static", ws1])), RE.grp 3 (rl "function"), ws1, RE.grp 4 wd1], 4⟩,
   ⟨rr [RE.bol, rl "class", ws1, RE.grp 1 wd1], 1⟩,
   ⟨rr [RE.bol, rl "interface", ws1, RE.grp 1 wd1], 1⟩,
   ⟨rr [RE.bol, rl "trait", ws1, RE.grp 1 wd1], 1⟩,
   ⟨rr [RE.bol, rl "namespace", ws1, RE.grp 1 wd1], 1⟩]

/-- `functionPatterns.swift` -/
def swiftPats : List FnPat :=
  [⟨rr [RE.bol, rl "func", ws1, RE.grp 1 wd1], 1⟩,
   ⟨rr [RE.bol, rl "class", ws1, RE.grp 1 wd1], 1⟩,
   ⟨rr [RE.bol, rl "struct", ws1, RE.grp 1 wd1], 1⟩,
   ⟨rr [RE.bol, rl "enum", ws1, RE.grp 1 wd1], 1⟩,
   ⟨rr [RE.bol, rl "protocol", ws1, RE.grp 1 wd1], 1⟩,
   ⟨rr [RE.bol, rl "extension", ws1, RE.grp 1 wd1], 1⟩]

/-- `functionPatterns.ruby` -/
def rubyPats : List FnPat :=
  [⟨rr [RE.bol, rl "def", ws1, RE.grp 1 wd1], 1⟩,
   ⟨rr [RE.bol, rl "class", ws1, RE.grp 1 wd1], 1⟩,
   ⟨rr [RE.bol, rl "module", ws1, RE.grp 1 wd1], 1⟩,
   ⟨rr [RE.bol, rl "attr_", wd1, ws1, rl ":", RE.grp 1 wd1], 1⟩]

/-- `functionPatterns.scala` -/
def scalaPats : List FnPat :=
  [⟨rr [RE.bol, rl "def", ws1, RE.grp 1 wd1], 1⟩,
   ⟨rr [RE.bol, rl "class", ws1, RE.grp 1 wd1], 1⟩,
   ⟨rr [RE.bol, rl "object", ws1, RE.grp 1 wd1], 1⟩,
   ⟨rr [RE.bol, rl "trait", ws1, RE.grp 1 wd1], 1⟩,
   ⟨rr [RE.bol, rl "type", ws1, RE.grp 1 wd1], 1⟩,
   ⟨rr [RE.bol, rl "case", ws1, rl "class", ws1, RE.grp 1 wd1], 1⟩]

/-- `functionPatterns.react` -/
def reactPats : List FnPat :=
  [⟨rr [RE.bol, RE.grp 1 (ror [rl "function", rl "const"]), ws1, RE.grp 2 wd1, ws0, rl ":",
      ws0, RE.opt (RE.grp 3 (rl "React.")), rl "FC",
      RE.opt (RE.grp 4 (rr [rl "<", RE.plus (rnc [CAtom.ch '>']), rl ">"]))], 4⟩,
   ⟨rr [RE.bol, RE.grp 1 (ror [rl "function", rl "const"]), ws1, RE.grp 2 wd1, ws0, rl ":",
      ws0, RE.opt (RE.grp 3 (rl "React.")), rl "FunctionComponent",
      RE.opt (RE.grp 4 (rr [rl "<", RE.plus (rnc [CAtom.ch '>']), rl ">"]))], 4⟩,
   ⟨rr [RE.bol, RE.opt (RE.grp 1 (rr [rl "export", ws1])),
      RE.grp 2 (ror [rl "function", rl "const"]), ws1, RE.grp 3 wd1, ws0, rl "=", ws0,
      rl "(", ws0, rl "props", ws0, rl ":", ws0, RE.star (rnc [CAtom.ch ')']), rl ")",
      ws0, rl "=>"], 3⟩,
   ⟨rr [RE.bol, rl "class", ws1, RE.grp 1 wd1, ws1, rl "extends", ws1,
      RE.opt (RE.grp 2 (rl "React.")), rl "Component"], 2⟩,
   ⟨rr [RE.bol, rl "class", ws1, RE.grp 1 wd1, ws1, rl "extends", ws1,
      RE.opt (RE.grp 2 (rl "React.")), rl "PureComponent"], 2⟩,
   ⟨rr [RE.bol, rl "const", ws1, rl "[", RE.grp 1 wd1, rl ",", ws0, rl "set", wd1, rl "]",
      ws0, rl "=", ws0, rl "useState"], 1⟩,
   ⟨rr [RE.bol, rl "const", ws1, RE.grp 1 wd1, ws0, rl "=", ws0, rl "useRef"], 1⟩,
   ⟨rr [RE.bol, rl "const", ws1, RE.grp 1 wd1, ws0, rl "=", ws0, rl "useMemo"], 1⟩,
   ⟨rr [RE.bol, rl "const", ws1, RE.grp 1 wd1, ws0, rl "=", ws0, rl "useCallback"], 1⟩,
   ⟨rr [RE.bol, rl "const", ws1, RE.grp 1 wd1, ws0, rl "=", ws0, rl "useContext"], 1⟩,
   ⟨rr [RE.bol, RE.grp 1 (ror [rl "function", rl "const"]), ws1, rl "use", RE.grp 2 wd1], 2⟩,
   ⟨rr [RE.bol, rl "const", ws1, RE.grp 1 wd1, ws0, rl "=", ws0, rl "withRouter"], 1⟩,
   ⟨rr [RE.bol, rl "const", ws1, RE.grp 1 wd1, ws0, rl "=", ws0, rl "connect"], 1⟩]

/-- `functionPatterns.dart` -/
def dartPats : List FnPat :=
  [⟨rr [RE.bol, rl "class", ws1, RE.grp 1 wd1,
      RE.opt (RE.grp 2 (rr [ws1, rl "extends", ws1, wd1])),
      RE.opt (RE.grp 3 (rr [ws1, rl "implements", ws1,
        RE.plus (rc [CAtom.word, CAtom.space, CAtom.ch ','])]))], 3⟩,
   ⟨rr [RE.bol, rl "abstract", ws1, rl "class", ws1, RE.grp 1 wd1], 1⟩,
   ⟨rr [RE.bol, rl "mixin", ws1, RE.grp 1 wd1], 1⟩,
   ⟨rr [RE.bol, rl "extension", ws1, RE.grp 1 wd1, ws1, rl "on", ws1, wd1], 1⟩,
   ⟨rr [RE.bol, RE.opt (RE.grp 1 (rr [rl "async", ws1])), RE.opt (RE.grp 2 (rr [wd1, ws1])),
      RE.grp 3 wd1, ws0, rl "(", RE.star (rnc [CAtom.ch ')']), rl ")", ws0,
      RE.opt (RE.grp 4 (rr [rl "async", ws0])), rl "\x7b"], 4⟩,
   ⟨rr [RE.bol, RE.grp 1 (ror [rl "get", rl "set"]), ws1, RE.grp 2 wd1], 2⟩,
   ⟨rr [RE.bol, rl "factory", ws1, RE.grp 1 wd1], 1⟩,
   ⟨rr [RE.bol, RE.grp 1 wd1, rl ".", RE.grp 2 wd1], 2⟩,
   ⟨rr [RE.bol, RE.grp 1 (ror [rl "final", rl "const", rl "var", rl "late"]), ws1, RE.grp 2 wd1], 2⟩,
   ⟨rr [RE.bol, rl "class", ws1, RE.grp 1 wd1, ws1, rl "extends", ws1,
      RE.grp 2 (ror [rl "StatelessWidget", rl "StatefulWidget"])], 2⟩,
   ⟨rr [RE.bol, rl "class", ws1, RE.opt (rl "_"), RE.grp 1 wd1, rl "State", ws1,
      rl "extends", ws1, rl "State"], 1⟩]

/-- `Object.entries(functionPatterns)`, in insertion order. -/
def functionPatterns : List (String × List FnPat) :=
  [("python", pyPats), ("typescript", tsPats), ("javascript", jsPats),
   ("java", javaPats), ("kotlin", kotlinPats), ("rust", rustPats),
   ("go", goPats), ("csharp", csharpPats), ("php", phpPats),
   ("swift", swiftPats), ("ruby", rubyPats), ("scala", scalaPats),
   ("react", reactPats), ("dart", dartPats)]

end CF

/-- A cursor position (vscode `Position`). -/
structure Position where
  line : Nat
  character : Nat
deriving DecidableEq

/-- Clip a `(line, column)` position to the bounds of a document given as its
list of lines: a line past the end becomes the end of the document, a column
past a line's end becomes the line's end (vscode `validatePosition`). -/
def clampPos (lines : List Str) (l c : Nat) : Nat × Nat :=
  if lines.length ≤ l then (lines.length - 1, (lines.getD (lines.length - 1) []).length)
  else (l, min c (lines.getD l []).length)

/-- Text between two in-bounds positions, walking `k` line boundaries; each
completed line contributes its tail and a newline, the last line contributes
its slice up to column `c2`. -/
def extractLoop (lines : List Str) (c2 : Nat) : Nat → Nat → Nat → Str
  | l1, c1, 0 => ((lines.getD l1 []).drop c1).take (c2 - c1)
  | l1, c1, Nat.succ k => ((lines.getD l1 []).drop c1) ++ '\n' :: extractLoop lines c2 (l1 + 1) 0 k

/-- vscode `document.getText(new Range(l1, c1, l2, c2))`: both positions are
clipped to the document bounds, then the spanned text is extracted. -/
def getTextRange (lines : List Str) (l1 c1 l2 c2 : Nat) : Str :=
  let p := clampPos lines l1 c1
  let q := clampPos lines l2 c2
  extractLoop lines q.2 p.1 p.2 (q.1 - p.1)

namespace CF

/-- The slice of a vscode `TextDocument` the formatter reads: its lines and
its language id. -/
structure TextDocument where
  lines : List Str
  languageId : String

/-- The editor indentation configuration `increaseIndentation` reads
(`editor.insertSpaces`, `editor.tabSize`). -/
structure IndentConfig where
  insertSpaces : Bool
  tabSize : Nat
deriving DecidableEq

/-- The `{ text, range }` value `formatCompletion` returns. -/
structure FormatResult where
  text : Str
  rangeStart : Position
  rangeEnd : Position
deriving DecidableEq

/-- `getIndentation`: the line's match of `/^[\s\t]*/`. -/
def getIndentation (line : Str) : Str := line.takeWhile jsIsSpace

/-- `increaseIndentation`: extend by `tabSize` spaces or one tab. -/
def increaseIndentation (cfg : IndentConfig) (currentIndent : Str) : Str :=
  if cfg.insertSpaces then currentIndent ++ List.replicate cfg.tabSize ' '
  else currentIndent ++ ['\t']

/-- `formatWithRule`: break (with the rule's indentation and a left-trimmed
completion) or pass the completion through; the range is always the empty
range at `position`. -/
def formatWithRule (cfg : IndentConfig) (rule : LineBreakRule) (position : Position)
    (completionText : Str) (currentIndentation : Str) : FormatResult :=
  let nextIndentation :=
    if rule.indentNextLine then increaseIndentation cfg currentIndentation
    else currentIndentation
  let formattedCompletion :=
    if rule.shouldBreak then '\n' :: (nextIndentation ++ trimLeft completionText)
    else completionText
  { text := formattedCompletion, rangeStart := position, rangeEnd := position }

/-- The maximal run of word characters at the end of `t`
(`/\b(\w+)$/`, also `/\b([\w_]+)$/`): `none` when `t` does not end in a word
character. -/
def trailingWordRun (t : Str) : Option Str :=
  let run := (t.reverse.takeWhile isWordChar).reverse
  if run.isEmpty then none else some run

/-- `new RegExp("\\b" + keyword + "\\b\\s*$").test(t)` for a trimmed `t` and
a keyword made of word characters: `t` ends with the keyword at a word
boundary. -/
def keywordAtEnd (kw t : Str) : Bool :=
  kw.isSuffixOf t &&
    (decide (t.length = kw.length) ||
      match t.get? (t.length - kw.length - 1) with
      | some c => !isWordChar c
      | none => false)

/-- `new RegExp("^\\s*" + keyword + "\\b").test(c)` for a trimmed `c`:
`c` starts with the keyword at a word boundary. -/
def keywordAtStart (kw c : Str) : Bool :=
  kw.isPrefixOf c &&
    (match c.get? kw.length with
     | some ch => !isWordChar ch
     | none => true)

/-- `followingText.match(/^[\w_<>[\](){}]/)`: the next character continues an
identifier or bracket token. -/
def startsIdentContinuation (f : Str) : Bool :=
  match f.head? with
  | some c => isWordChar c || c = '<' || c = '>' || c = '[' || c = ']' ||
      c = '(' || c = ')' || c = '\x7b' || c = '\x7d'
  | none => false

/-- Strategy 1 of `removeDuplicateKeywords` (construct-signature match), as a
standalone function: the first language/pattern pair whose pattern matches
the trimmed prefix and, with an identical final capture, the trimmed
completion, strips the completion through the prefix match's length. -/
def strategyConstructSignature (linePrefix completionText : Str) : Option Str :=
  let trimmedPrefix := jsTrim linePrefix
  let trimmedCompletion := jsTrim completionText
  functionPatterns.findSome? (fun entry =>
    entry.2.findSome? (fun pat =>
      match reSearch false pat.re trimmedPrefix with
      | none => none
      | some (st, en, pcaps) =>
        let identifierName := (capLookup pcaps pat.ng).map (fun ab => strSlice trimmedPrefix ab.1 ab.2)
        match reSearch false pat.re trimmedCompletion with
        | none => none
        | some (_, _, ccaps) =>
          let cid := (capLookup ccaps pat.ng).map (fun ab => strSlice trimmedCompletion ab.1 ab.2)
          if cid = identifierName then
            some (trimLeft (trimmedCompletion.drop (en - st)))
          else none))

/-- Strategy 2 of `removeDuplicateKeywords` (partial-identifier match), as a
standalone function. -/
def strategyPartialWord (linePrefix completionText : Str) : Option Str :=
  let trimmedPrefix := jsTrim linePrefix
  let trimmedCompletion := jsTrim completionText
  match trailingWordRun trimmedPrefix with
  | none => none
  | some partialWord =>
    if partialWord.isPrefixOf trimmedCompletion then
      let followingText := trimmedCompletion.drop partialWord.length
      if startsIdentContinuation followingText then some followingText else none
    else none

/-- Strategy 3 of `removeDuplicateKeywords` (keyword-boundary match), as a
standalone function. -/
def strategyKeyword (linePrefix completionText : Str) : Option Str :=
  let trimmedPrefix := jsTrim linePrefix
  let trimmedCompletion := jsTrim completionText
  keywords.findSome? (fun kw =>
    if keywordAtEnd kw trimmedPrefix then
      if keywordAtStart kw trimmedCompletion then
        some (jsTrim (trimmedCompletion.drop kw.length))
      else none
    else none)

/-- `removeDuplicateKeywords`, embedded monolithically in the source's
control flow: the construct-signature loops, then the partial-word check,
then the keyword loop, each returning on its first success, and the original
`completionText` when nothing strips. -/
def removeDuplicateKeywords (linePrefix completionText : Str) : Str :=
  let trimmedPrefix := jsTrim linePrefix
  let trimmedCompletion := jsTrim completionText
  match functionPatterns.findSome? (fun entry =>
    entry.2.findSome? (fun pat =>
      match reSearch false pat.re trimmedPrefix with
      | none => none
      | some (st, en, pcaps) =>
        let identifierName := (capLookup pcaps pat.ng).map (fun ab => strSlice trimmedPrefix ab.1 ab.2)
        match reSearch false pat.re trimmedCompletion with
        | none => none
        | some (_, _, ccaps) =>
          let cid := (capLookup ccaps pat.ng).map (fun ab => strSlice trimmedCompletion ab.1 ab.2)
          if cid = identifierName then
            some (trimLeft (trimmedCompletion.drop (en - st)))
          else none)) with
  | some r => r
  | none =>
    match (match trailingWordRun trimmedPrefix with
      | none => none
      | some partialWord =>
        if partialWord.isPrefixOf trimmedCompletion then
          let followingText := trimmedCompletion.drop partialWord.length
          if startsIdentContinuation followingText then some followingText else none
        else none) with
    | some r => r
    | none =>
      match keywords.findSome? (fun kw =>
        if keywordAtEnd kw trimmedPrefix then
          if keywordAtStart kw trimmedCompletion then
            some (jsTrim (trimmedCompletion.drop kw.length))
          else none
        else none) with
      | some r => r
      | none => completionText

/-- The `languagePatterns` table of `shouldAddLineBreak`; a missing language
id yields no list. -/
def languagePatterns (languageId : String) : Option (List JSRegex) :=
  if languageId = "python" then some
    [⟨rr [RE.bol, RE.opt (RE.grp 1 (rr [rl "async", ws1])), rl "def", ws1, wd1, ws0,
        rl "(", RE.star (rnc [CAtom.ch ')']), rl ")", ws0,
        RE.opt (RE.grp 2 (rr [rl "->", ws0, RE.plus (rnc [CAtom.ch ':'])])),
        ws0, rl ":", ws0, RE.eol], false⟩,
     ⟨rr [RE.bol, rl "class", ws1, wd1,
        RE.opt (RE.grp 1 (rr [ws0, rl "(", RE.star (rnc [CAtom.ch ')']), rl ")"])),
        ws0, rl ":", ws0, RE.eol], false⟩,
     ⟨rr [RE.bol,
        RE.grp 1 (ror [rl "if", rl "elif", rl "else", rl "for", rl "while", rl "with",
          rl "try", rl "except", rl "finally"]),
        ws0, any0, rl ":", ws0, RE.eol], false⟩]
  else if languageId = "typescript" then some
    [⟨rr [RE.bol, rl "interface", ws1, wd1, ws0, RE.eol], false⟩,
     ⟨rr [RE.bol, rl "type", ws1, wd1, ws0, rl "=", ws0, RE.eol], false⟩,
     ⟨rr [rl "=>", ws0, RE.eol], false⟩]
  else if languageId = "javascript" then some
    [⟨rr [rl "=>", ws0, RE.eol], false⟩,
     ⟨rr [rl "\x7b", ws0, RE.eol], false⟩,
     ⟨rr [rl "[", ws0, RE.eol], false⟩]
  else none

/-- The `generalPatterns` list of `shouldAddLineBreak`, in source order. -/
def generalBreakPatterns : List JSRegex :=
  [⟨rr [rc [CAtom.ch '\x7b', CAtom.ch '(', CAtom.ch '['], ws0, RE.eol], false⟩,
   ⟨rr [rl ".", wd1, rl "()", ws0, RE.eol], false⟩,
   ⟨rr [rc [CAtom.ch '+', CAtom.ch '-', CAtom.ch '*', CAtom.ch '/', CAtom.ch '%',
      CAtom.ch '&', CAtom.ch '|', CAtom.ch '^'], RE.opt (rl "="), ws0, RE.eol], false⟩,
   ⟨rr [RE.grp 1 (ror [rl "SELECT", rl "INSERT", rl "UPDATE", rl "DELETE", rl "FROM",
      rl "WHERE", rl "GROUP BY", rl "ORDER BY", rl "HAVING"]), ws0, RE.eol], true⟩,
   ⟨rr [RE.bol,
      RE.grp 1 (ror [rl "if", rl "for", rl "while", rl "switch", rl "catch",
        rl "function", rl "class", rl "interface", rl "namespace"]),
      ws1, any0, RE.eol], false⟩,
   ⟨rr [RE.bol,
      RE.grp 1 (ror [rl "public", rl "private", rl "protected", rl "static", rl "async"]),
      ws1,
      RE.grp 2 (ror [rl "function", rl "method", rl "void",
        RE.plus (rc [CAtom.word, CAtom.ch '<', CAtom.ch '>'])]),
      ws1, wd1, ws0, rl "(", RE.star (rnc [CAtom.ch ')']), rl ")", ws0, RE.eol], false⟩,
   ⟨rr [RE.bol, rl "@", wd1,
      RE.opt (RE.grp 1 (rr [ws0, rl "(", RE.star (rnc [CAtom.ch ')']), rl ")"])),
      ws0, RE.eol], false⟩,
   ⟨rr [rl ".", RE.grp 1 (ror [rl "then", rl "catch", rl "finally"]), rl "(", ws0, RE.eol], false⟩,
   ⟨rr [rl "\x60", RE.star (rnc [CAtom.ch '\x60']), RE.eol], false⟩,
   ⟨rr [rl "/**", ws0, RE.eol], false⟩,
   ⟨rr [rl "<", RE.plus (rnc [CAtom.ch '>']), rl ">", ws0, RE.eol], false⟩,
   ⟨rr [RE.bol, RE.grp 1 (ror [rl "const", rl "let", rl "var"]), ws1, wd1, ws0,
      rl "=", ws0, RE.eol], false⟩]

/-- `(linePrefix.match(/[{(\[]/g) || []).length`-style counting. -/
def countChars (cs : List Char) (s : Str) : Nat :=
  (s.filter (fun c => cs.contains c)).length

/-- `shouldAddLineBreak`: language-specific patterns, then general patterns
(both against the trimmed prefix), then unbalanced open brackets, then the
100-character length threshold. -/
def shouldAddLineBreak (linePrefix : Str) (languageId : String) : Bool :=
  let langHit :=
    match languagePatterns languageId with
    | some pats => pats.any (fun p => reTest p (jsTrim linePrefix))
    | none => false
  if langHit then true
  else if generalBreakPatterns.any (fun p => reTest p (jsTrim linePrefix)) then true
  else if countChars ['\x7b', '(', '['] linePrefix > countChars ['\x7d', ')', ']'] linePrefix then true
  else if linePrefix.length > 100 then true
  else false

/-- The record `detectContext` builds. -/
structure DetectedContext where
  isPartialDefinition : Bool
  partialKeyword : Option Str
  context : Str

/-- JS `s.includes(sub)`. -/
def strIncludes (sub : Str) : Str → Bool
  | [] => sub.isEmpty
  | c :: rest => sub.isPrefixOf (c :: rest) || strIncludes sub rest

/-- `determineContext`: a coarse label from substring checks on the
preceding text. -/
def determineContext (text : Str) (languageId : String) : Str :=
  if strIncludes (str "class") text then str "class"
  else if strIncludes (str "def") text || strIncludes (str "function") text then str "function"
  else if strIncludes (str "if") text || strIncludes (str "else") text then str "conditional"
  else str "unknown"

/-- `detectContext`: the trailing word of the trimmed prefix, if any. -/
def detectContext (precedingText linePrefix : Str) (languageId : String) : DetectedContext :=
  let lastLine := jsTrim linePrefix
  let pk := trailingWordRun lastLine
  { isPartialDefinition := pk.isSome,
    partialKeyword := pk,
    context := determineContext precedingText languageId }

/-- `adjustCompletionForPartialDefinition`. -/
def adjustCompletionForPartialDefinition (completion partialKeyword : Str) : Str :=
  if partialKeyword.isPrefixOf completion then
    trimLeft (completion.drop partialKeyword.length)
  else completion

/-- `applyFormattingRules`: the no-rule-matched path of `formatCompletion` —
partial-definition adjustment, then the `shouldAddLineBreak` decision. -/
def applyFormattingRules (cfg : IndentConfig) (document : TextDocument)
    (position : Position) (completionText : Str) (currentIndentation : Str)
    (linePrefix : Str) (languageId : String) : FormatResult :=
  let precedingText := getTextRange document.lines (position.line - 10) 0 position.line position.character
  let context := detectContext precedingText linePrefix languageId
  let completionText :=
    if context.isPartialDefinition then
      adjustCompletionForPartialDefinition completionText (context.partialKeyword.getD [])
    else completionText
  let sb := shouldAddLineBreak linePrefix languageId
  let nextIndentation :=
    if sb then increaseIndentation cfg currentIndentation else currentIndentation
  let formattedText :=
    if sb then '\n' :: (nextIndentation ++ completionText) else completionText
  { text := formattedText, rangeStart := position, rangeEnd := position }

/-- `formatCompletion` of the full variant: language-specific rules, then
general rules (first match returns through `formatWithRule` on the raw
completion), otherwise `removeDuplicateKeywords` followed by
`applyFormattingRules`. -/
def formatCompletion (cfg : IndentConfig) (document : TextDocument)
    (position : Position) (completionText : Str) : FormatResult :=
  let currentLine := document.lines.getD position.line []
  let currentIndentation := getIndentation currentLine
  let linePrefix := currentLine.take position.character
  let languageId := document.languageId
  let languageRules := languageSpecificRules languageId
  match languageRules.find? (fun rule => reTest rule.pattern linePrefix) with
  | some rule => formatWithRule cfg rule position completionText currentIndentation
  | none =>
    match lineBreakRules.find? (fun rule => reTest rule.pattern linePrefix) with
    | some rule => formatWithRule cfg rule position completionText currentIndentation
    | none =>
      let completionText := removeDuplicateKeywords linePrefix completionText
      applyFormattingRules cfg document position completionText currentIndentation
        linePrefix languageId

end CF

namespace CFSimple

/-!
Embedding of the reduced `CompletionFormatter` of
`src/completionFormatter.ts` (six rules, no language table, no duplication
resolver).
-/

/-- Its `LineBreakRule` records. -/
structure LineBreakRule where
  pattern : JSRegex
  shouldBreak : Bool
  indentNextLine : Bool := false
deriving DecidableEq

/-- `/^import\s+.*/` -/
def importRule : LineBreakRule :=
  { pattern := ⟨rr [RE.bol, rl "import", ws1, any0], false⟩, shouldBreak := true }

/-- `/^(async\s+)?function\s*.*\)\s*{?\s*$/` -/
def functionRule : LineBreakRule :=
  { pattern := ⟨rr [RE.bol, RE.opt (RE.grp 1 (rr [rl "async", ws1])), rl "function",
      ws0, any0, rl ")", ws0, RE.opt (rl "\x7b"), ws0, RE.eol], false⟩,
    shouldBreak := true, indentNextLine := true }

/-- `/^class\s+.*{?\s*$/` -/
def classRule : LineBreakRule :=
  { pattern := ⟨rr [RE.bol, rl "class", ws1, any0, RE.opt (rl "\x7b"), ws0, RE.eol], false⟩,
    shouldBreak := true, indentNextLine := true }

/-- `/^\s*(async\s+)?[\w]+\s*\(.*\)\s*{?\s*$/` -/
def methodRule : LineBreakRule :=
  { pattern := ⟨rr [RE.bol, ws0, RE.opt (RE.grp 1 (rr [rl "async", ws1])),
      RE.plus (rc [CAtom.word]), ws0, rl "(", any0, rl ")", ws0,
      RE.opt (rl "\x7b"), ws0, RE.eol], false⟩,
    shouldBreak := true, indentNextLine := true }

/-- `/^(if|for|while|switch)\s*\(.*\)\s*{?\s*$/` -/
def controlRule : LineBreakRule :=
  { pattern := ⟨rr [RE.bol, RE.grp 1 (ror [rl "if", rl "for", rl "while", rl "switch"]),
      ws0, rl "(", any0, rl ")", ws0, RE.opt (rl "\x7b"), ws0, RE.eol], false⟩,
    shouldBreak := true, indentNextLine := true }

/-- `/.*[+\-*/=]\s*$/` -/
def operatorRule : LineBreakRule :=
  { pattern := ⟨rr [any0,
      rc [CAtom.ch '+', CAtom.ch '-', CAtom.ch '*', CAtom.ch '/', CAtom.ch '='],
      ws0, RE.eol], false⟩,
    shouldBreak := true }

/-- Its `lineBreakRules` array. -/
def lineBreakRules : List LineBreakRule :=
  [importRule, functionRule, classRule, methodRule, controlRule, operatorRule]

/-- `getIndentation`. -/
def getIndentation (line : Str) : Str := line.takeWhile jsIsSpace

/-- `increaseIndentation`. -/
def increaseIndentation (cfg : CF.IndentConfig) (currentIndent : Str) : Str :=
  if cfg.insertSpaces then currentIndent ++ List.replicate cfg.tabSize ' '
  else currentIndent ++ ['\t']

/-- `formatCompletion` of the reduced variant: the loop over
`lineBreakRules` returns on the first rule whose pattern matches *and* whose
`shouldBreak` is set (a matching rule without `shouldBreak` falls through);
the default is the inline completion. -/
def formatCompletion (cfg : CF.IndentConfig) (document : CF.TextDocument)
    (position : Position) (completionText : Str) : CF.FormatResult :=
  let currentLine := document.lines.getD position.line []
  let currentIndentation := getIndentation currentLine
  let linePrefix := currentLine.take position.character
  match lineBreakRules.findSome? (fun rule =>
    if reTest rule.pattern linePrefix then
      let nextIndentation :=
        if rule.indentNextLine then increaseIndentation cfg currentIndentation
        else currentIndentation
      if rule.shouldBreak then
        some { text := '\n' :: (nextIndentation ++ trimLeft completionText),
               rangeStart := position, rangeEnd := position }
      else none
    else none) with
  | some r => r
  | none => { text := completionText, rangeStart := position, rangeEnd := position }

end CFSimple

namespace CA

/-!
Embedding of the `ContextAwareness` class of `src/contextAwareness.ts`.
The vscode active editor is modelled as an optional record of the document
text and the cursor line; the class's two mutable fields form the state.
-/

/-- The active editor: document text plus the cursor's line. -/
structure Editor where
  text : Str
  cursorLine : Nat

/-- The mutable fields of a `ContextAwareness` instance. -/
structure CAState where
  slidingWindow : List Str
  acceptedSuggestions : List Str
deriving DecidableEq

/-- The `UserContext` record `getUserContext` returns. -/
structure UserContext where
  recentLines : List Str
  acceptedSuggestions : List Str
  surroundingContext : Str
deriving DecidableEq

/-- `maxWindowSize = 250`. -/
def maxWindowSize : Nat := 250

/-- `updateSlidingWindow`: with no active editor the state is untouched;
otherwise the window becomes `lines.slice(Math.max(0, lines.length -
maxWindowSize))` of the split document text (`Nat` subtraction is the
`Math.max(0, ·)`). -/
def updateSlidingWindow (st : CAState) (activeEditor : Option Editor) : CAState :=
  match activeEditor with
  | none => st
  | some e =>
    let lines := splitLines e.text
    let startLine := lines.length - maxWindowSize
    { st with slidingWindow := lines.drop startLine }

/-- `trackAcceptedSuggestion`: append to the log. -/
def trackAcceptedSuggestion (st : CAState) (suggestion : Str) : CAState :=
  { st with acceptedSuggestions := st.acceptedSuggestions ++ [suggestion] }

/-- `getSurroundingContext`: the empty string with no active editor,
otherwise `document.getText(new Range(max(0, cursor-25), 0,
min(totalLines, cursor+25), 0))`. -/
def getSurroundingContext (activeEditor : Option Editor) : Str :=
  match activeEditor with
  | none => []
  | some e =>
    let lines := splitLines e.text
    let totalLines := lines.length
    let startLine := e.cursorLine - 25
    let endLine := min totalLines (e.cursorLine + 25)
    getTextRange lines startLine 0 endLine 0

/-- `getUserContext`: recompute the window, take the snapshot, return the
composed bundle together with the updated instance state. -/
def getUserContext (st : CAState) (activeEditor : Option Editor) : UserContext × CAState :=
  let st1 := updateSlidingWindow st activeEditor
  let surroundingContext := getSurroundingContext activeEditor
  ({ recentLines := st1.slidingWindow,
     acceptedSuggestions := st1.acceptedSuggestions,
     surroundingContext := surroundingContext }, st1)

end CA

/-- Specification-side description of "the contiguous text spanning the line
range `[a, b)`" of a document (`b ≤` the line count): every spanned line
followed by a newline while lines remain after the span, and the spanned
lines joined by newlines when the span reaches the document's end. -/
def lineSpanText (lines : List Str) (a b : Nat) : Str :=
  let seg := (lines.drop a).take (b - a)
  if b < lines.length then concatNl seg else joinNl seg

/-- The default editor indentation configuration (`insertSpaces = true`,
`tabSize = 4`, the defaults the source supplies to `config.get`). -/
def cfgDefault : CF.IndentConfig := { insertSpaces := true, tabSize := 4 }

/-- A one-line document whose text is `"import "`, language `go`. -/
def docImport : CF.TextDocument := { lines := [str "import "], languageId := "go" }

/-- A one-line document whose text is `"foo("`, language `go`. -/
def docFooParen : CF.TextDocument := { lines := [str "foo("], languageId := "go" }

/-- A one-line document whose text is `"zq"`, language `go`. -/
def docZq : CF.TextDocument := { lines := [str "zq"], languageId := "go" }

/-- A 300-line document (299 newlines), every line `"x"`. -/
def doc300 : Str := joinNl (List.replicate 300 (str "x"))

theorem joinNl_cons_of_ne_nil (x : Str) (xs : List Str) (h : xs ≠ []) :
    joinNl (x :: xs) = x ++ '\n' :: joinNl xs := by
  cases xs with
  | nil => exact absurd rfl h
  | cons y ys => rfl

theorem splitLines_ne_nil (s : Str) : splitLines s ≠ [] := by
  induction s with
  | nil => simp [splitLines]
  | cons c rest ih =>
    rw [splitLines]
    by_cases hc : c = '\n'
    · simp [hc]
    · rw [if_neg hc]
      cases h : splitLines rest with
      | nil => simp
      | cons hd tl => simp

/-- The two-stage rule dispatch of `CF.formatCompletion` equals a single
first-match scan over the concatenation of the language-specific and the
general rule lists. -/
theorem formatCompletion_eq_combined (cfg : CF.IndentConfig) (document : CF.TextDocument)
    (position : Position) (completionText : Str) :
    CF.formatCompletion cfg document position completionText =
      match (CF.languageSpecificRules document.languageId ++ CF.lineBreakRules).find?
          (fun rule => reTest rule.pattern ((document.lines.getD position.line []).take position.character)) with
      | some rule =>
          CF.formatWithRule cfg rule position completionText
            (CF.getIndentation (document.lines.getD position.line []))
      | none =>
          CF.applyFormattingRules cfg document position
            (CF.removeDuplicateKeywords ((document.lines.getD position.line []).take position.character) completionText)
            (CF.getIndentation (document.lines.getD position.line []))
            ((document.lines.getD position.line []).take position.character)
            document.languageId := by
  rw [List.find?_append]
  cases hL : (CF.languageSpecificRules document.languageId).find?
      (fun rule => reTest rule.pattern ((document.lines.getD position.line []).take position.character)) with
  | some r => simp only [CF.formatCompletion, hL, Option.or]
  | none =>
    cases hG : CF.lineBreakRules.find?
        (fun rule => reTest rule.pattern ((document.lines.getD position.line []).take position.character)) with
    | some r => simp only [CF.formatCompletion, hL, hG, Option.or]
    | none => simp only [CF.formatCompletion, hL, hG, Option.or]

theorem findSome?_break_shape (cfg : CF.IndentConfig) (position : Position)
    (c ci lp : Str) :
    ∀ (rules : List CFSimple.LineBreakRule) (r : CF.FormatResult),
      rules.findSome? (fun rule =>
        if reTest rule.pattern lp then
          let nextIndentation :=
            if rule.indentNextLine then CFSimple.increaseIndentation cfg ci else ci
          if rule.shouldBreak then
            some { text := '\n' :: (nextIndentation ++ trimLeft c),
                   rangeStart := position, rangeEnd := position }
          else none
        else none) = some r →
      ∃ ind, r = { text := '\n' :: (ind ++ trimLeft c),
                   rangeStart := position, rangeEnd := position } := by
  intro rules
  induction rules with
  | nil => intro r h; simp [List.findSome?] at h
  | cons rule rest ih =>
    intro r h
    rw [List.findSome?] at h
    by_cases h1 : reTest rule.pattern lp
    · rw [if_pos h1] at h
      by_cases h2 : rule.shouldBreak
      · simp only [h2, if_true] at h
        cases h
        exact ⟨_, rfl⟩
      · simp only [h2, Bool.false_eq_true, if_false] at h
        exact ih r h
    · rw [if_neg h1] at h
      exact ih r h

/-- Every run of the reduced formatter yields either the inline completion
or a break: newline, some indentation, then the left-trimmed completion —
always anchored at the cursor. -/
theorem cfsimple_formatCompletion_cases (cfg : CF.IndentConfig)
    (document : CF.TextDocument) (position : Position) (completionText : Str) :
    CFSimple.formatCompletion cfg document position completionText =
        { text := completionText, rangeStart := position, rangeEnd := position } ∨
      ∃ ind, CFSimple.formatCompletion cfg document position completionText =
        { text := '\n' :: (ind ++ trimLeft completionText),
          rangeStart := position, rangeEnd := position } := by
  simp only [CFSimple.formatCompletion]
  split
  · next r heq =>
      right
      obtain ⟨ind, hr⟩ := findSome?_break_shape cfg position completionText
        (CFSimple.getIndentation (document.lines.getD position.line []))
        ((document.lines.getD position.line []).take position.character)
        CFSimple.lineBreakRules r heq
      exact ⟨ind, by rw [hr]⟩
  · left; rfl

/-- C1 (counterexample): with prefix `"import "` the first general rule
matches, so the orchestrator formats the raw completion; the resolver would
have stripped the duplicated `import`, and formatting the de-duplicated
completion yields a different final text. -/
theorem C1_counterexample_rule_path_skips_resolver :
    (CF.formatCompletion cfgDefault docImport ⟨0, 7⟩ (str "import React from 'react';")).text
        = str "\nimport React from 'react';" ∧
    CF.removeDuplicateKeywords (str "import ") (str "import React from 'react';")
        = str "React from 'react';" ∧
    (CF.formatCompletion cfgDefault docImport ⟨0, 7⟩
        (CF.removeDuplicateKeywords (str "import ") (str "import React from 'react';"))).text
        = str "\nReact from 'react';" ∧
    str "\nimport React from 'react';" ≠ str "\nReact from 'react';" :=
  ⟨by decide, by decide, by decide, by decide⟩

/-- C1 (amended): the orchestrator consults the rule tables first, on the raw
completion; the DuplicationResolver runs, followed by the secondary
formatting pass, only when no rule matches the prefix. -/
theorem C1_amended_resolver_only_on_no_rule_path (cfg : CF.IndentConfig)
    (document : CF.TextDocument) (position : Position) (completionText : Str) :
    (∀ rule, (CF.languageSpecificRules document.languageId ++ CF.lineBreakRules).find?
        (fun rule => reTest rule.pattern ((document.lines.getD position.line []).take position.character))
          = some rule →
      CF.formatCompletion cfg document position completionText =
        CF.formatWithRule cfg rule position completionText
          (CF.getIndentation (document.lines.getD position.line []))) ∧
    ((CF.languageSpecificRules document.languageId ++ CF.lineBreakRules).find?
        (fun rule => reTest rule.pattern ((document.lines.getD position.line []).take position.character))
          = none →
      CF.formatCompletion cfg document position completionText =
        CF.applyFormattingRules cfg document position
          (CF.removeDuplicateKeywords ((document.lines.getD position.line []).take position.character) completionText)
          (CF.getIndentation (document.lines.getD position.line []))
          ((document.lines.getD position.line []).take position.character)
          document.languageId) := by
  constructor
  · intro rule h
    rw [formatCompletion_eq_combined, h]
  · intro h
    rw [formatCompletion_eq_combined, h]

/-- C1 (witness): the amended claim applied at the `"import "` example. -/
theorem C1_witness :
    ((CF.languageSpecificRules docImport.languageId ++ CF.lineBreakRules).find?
        (fun rule => reTest rule.pattern ((docImport.lines.getD (0 : Nat) []).take 7))
          = some CF.importRule) ∧
    CF.formatCompletion cfgDefault docImport ⟨0, 7⟩ (str "import React") =
      CF.formatWithRule cfgDefault CF.importRule ⟨0, 7⟩ (str "import React")
        (CF.getIndentation (docImport.lines.getD (0 : Nat) [])) :=
  ⟨by decide,
   (C1_amended_resolver_only_on_no_rule_path cfgDefault docImport ⟨0, 7⟩
      (str "import React")).1 CF.importRule (by decide)⟩

/-- C2: the two-stage dispatch (language-specific rules strictly before the
general list, declaration order within each) is exactly a first-match scan of
the concatenated rule table, and whenever any rule of the combined table
matches the prefix, the result is `formatWithRule` of the earliest matching
rule. -/
theorem C2_first_matching_rule_decides (cfg : CF.IndentConfig)
    (document : CF.TextDocument) (position : Position) (completionText : Str) :
    (CF.formatCompletion cfg document position completionText =
      match (CF.languageSpecificRules document.languageId ++ CF.lineBreakRules).find?
          (fun rule => reTest rule.pattern ((document.lines.getD position.line []).take position.character)) with
      | some rule =>
          CF.formatWithRule cfg rule position completionText
            (CF.getIndentation (document.lines.getD position.line []))
      | none =>
          CF.applyFormattingRules cfg document position
            (CF.removeDuplicateKeywords ((document.lines.getD position.line []).take position.character) completionText)
            (CF.getIndentation (document.lines.getD position.line []))
            ((document.lines.getD position.line []).take position.character)
            document.languageId) ∧
    (∀ rule ∈ CF.languageSpecificRules document.languageId ++ CF.lineBreakRules,
      reTest rule.pattern ((document.lines.getD position.line []).take position.character) = true →
      ∃ r', (CF.languageSpecificRules document.languageId ++ CF.lineBreakRules).find?
          (fun rule => reTest rule.pattern ((document.lines.getD position.line []).take position.character))
            = some r' ∧
        reTest r'.pattern ((document.lines.getD position.line []).take position.character) = true ∧
        CF.formatCompletion cfg document position completionText =
          CF.formatWithRule cfg r' position completionText
            (CF.getIndentation (document.lines.getD position.line []))) := by
  refine ⟨formatCompletion_eq_combined cfg document position completionText, ?_⟩
  intro rule hmem htest
  cases hf : (CF.languageSpecificRules document.languageId ++ CF.lineBreakRules).find?
      (fun rule => reTest rule.pattern ((document.lines.getD position.line []).take position.character)) with
  | none =>
    rw [List.find?_eq_none] at hf
    exact absurd htest (by simpa using hf rule hmem)
  | some r' =>
    have hp := List.find?_some hf
    refine ⟨r', rfl, by simpa using hp, ?_⟩
    rw [formatCompletion_eq_combined, hf]

/-- C2 (witness): the dispatch property applied at the `"import "` example. -/
theorem C2_witness :
    CF.importRule ∈ CF.languageSpecificRules docImport.languageId ++ CF.lineBreakRules ∧
    reTest CF.importRule.pattern ((docImport.lines.getD (0 : Nat) []).take 7) = true ∧
    ∃ r', (CF.languageSpecificRules docImport.languageId ++ CF.lineBreakRules).find?
        (fun rule => reTest rule.pattern ((docImport.lines.getD (0 : Nat) []).take 7))
          = some r' ∧
      reTest r'.pattern ((docImport.lines.getD (0 : Nat) []).take 7) = true ∧
      CF.formatCompletion cfgDefault docImport ⟨0, 7⟩ (str "import React") =
        CF.formatWithRule cfgDefault r' ⟨0, 7⟩ (str "import React")
          (CF.getIndentation (docImport.lines.getD (0 : Nat) [])) :=
  ⟨by decide, by decide,
   (C2_first_matching_rule_decides cfgDefault docImport ⟨0, 7⟩ (str "import React")).2
     CF.importRule (by decide) (by decide)⟩

/-- C3 (counterexample): prefix `"foo("` matches no rule of the
language-specific or general rule table and the resolver strips nothing,
yet the returned text is not the completion inserted inline: the secondary
`shouldAddLineBreak` pass prepends a newline and one indent unit. -/
theorem C3_counterexample_secondary_break :
    ((CF.languageSpecificRules docFooParen.languageId ++ CF.lineBreakRules).find?
        (fun rule => reTest rule.pattern ((docFooParen.lines.getD (0 : Nat) []).take 4)) = none) ∧
    CF.removeDuplicateKeywords (str "foo(") (str "x") = str "x" ∧
    (CF.formatCompletion cfgDefault docFooParen ⟨0, 4⟩ (str "x")).text = str "\n    x" ∧
    str "\n    x" ≠ str "x" :=
  ⟨by decide, by decide, by decide, by decide⟩

/-- C3 (amended): when no rule of either table matches *and* the secondary
`shouldAddLineBreak` check is also negative, the returned text is the
de-duplicated completion after the partial-definition adjustment, inserted
inline with nothing prepended. -/
theorem C3_amended_inline_when_no_break (cfg : CF.IndentConfig)
    (document : CF.TextDocument) (position : Position) (completionText : Str) :
    (CF.languageSpecificRules document.languageId ++ CF.lineBreakRules).find?
        (fun rule => reTest rule.pattern ((document.lines.getD position.line []).take position.character))
          = none →
    CF.shouldAddLineBreak ((document.lines.getD position.line []).take position.character)
        document.languageId = false →
    (CF.formatCompletion cfg document position completionText).text =
      (if (CF.detectContext
            (getTextRange document.lines (position.line - 10) 0 position.line position.character)
            ((document.lines.getD position.line []).take position.character)
            document.languageId).isPartialDefinition then
        CF.adjustCompletionForPartialDefinition
          (CF.removeDuplicateKeywords ((document.lines.getD position.line []).take position.character) completionText)
          ((CF.detectContext
            (getTextRange document.lines (position.line - 10) 0 position.line position.character)
            ((document.lines.getD position.line []).take position.character)
            document.languageId).partialKeyword.getD [])
      else
        CF.removeDuplicateKeywords ((document.lines.getD position.line []).take position.character) completionText) := by
  intro h hsb
  rw [formatCompletion_eq_combined, h]
  simp only [CF.applyFormattingRules, hsb, Bool.false_eq_true, if_false]

/-- C3 (witness): the amended claim applied at prefix `"zq"`, language `go`,
completion `"y"`. -/
theorem C3_witness :
    ((CF.languageSpecificRules docZq.languageId ++ CF.lineBreakRules).find?
        (fun rule => reTest rule.pattern ((docZq.lines.getD (0 : Nat) []).take 2)) = none) ∧
    CF.shouldAddLineBreak ((docZq.lines.getD (0 : Nat) []).take 2) docZq.languageId = false ∧
    (CF.formatCompletion cfgDefault docZq ⟨0, 2⟩ (str "y")).text =
      (if (CF.detectContext (getTextRange docZq.lines 0 0 0 2)
            ((docZq.lines.getD (0 : Nat) []).take 2) docZq.languageId).isPartialDefinition then
        CF.adjustCompletionForPartialDefinition
          (CF.removeDuplicateKeywords ((docZq.lines.getD (0 : Nat) []).take 2) (str "y"))
          ((CF.detectContext (getTextRange docZq.lines 0 0 0 2)
            ((docZq.lines.getD (0 : Nat) []).take 2) docZq.languageId).partialKeyword.getD [])
      else
        CF.removeDuplicateKeywords ((docZq.lines.getD (0 : Nat) []).take 2) (str "y")) :=
  ⟨by decide, by decide,
   C3_amended_inline_when_no_break cfgDefault docZq ⟨0, 2⟩ (str "y") (by decide) (by decide)⟩

set_option maxRecDepth 100000 in
/-- C4: recomputing the sliding window keeps exactly the last
`min(T, 250)` lines of the split document text, in order; in particular a
300-line document leaves the window equal to lines 51–300 (1-indexed),
of length 250. -/
theorem C4_sliding_window_invariant :
    (∀ (st : CA.CAState) (e : CA.Editor),
      (CA.updateSlidingWindow st (some e)).slidingWindow.length
          = min (splitLines e.text).length CA.maxWindowSize ∧
      (splitLines e.text).take
            ((splitLines e.text).length - min (splitLines e.text).length CA.maxWindowSize)
          ++ (CA.updateSlidingWindow st (some e)).slidingWindow = splitLines e.text) ∧
    (∀ st : CA.CAState,
      (CA.updateSlidingWindow st (some ⟨doc300, 0⟩)).slidingWindow
          = (splitLines doc300).drop 50 ∧
      (CA.updateSlidingWindow st (some ⟨doc300, 0⟩)).slidingWindow.length = 250) := by
  constructor
  · intro st e
    simp only [CA.updateSlidingWindow]
    constructor
    · rw [List.length_drop]
      omega
    · have h : (splitLines e.text).length - min (splitLines e.text).length CA.maxWindowSize
          = (splitLines e.text).length - CA.maxWindowSize := by omega
      rw [h, List.take_append_drop]
  · intro st
    exact ⟨by simp only [CA.updateSlidingWindow]; decide,
           by simp only [CA.updateSlidingWindow]; decide⟩

/-- C6 (counterexample): with no active editor, `getUserContext` returns
whatever the sliding window held before — not an empty window. -/
theorem C6_counterexample_stale_window :
    (CA.getUserContext ⟨[str "stale"], []⟩ none).1.recentLines = [str "stale"] ∧
    [str "stale"] ≠ ([] : List Str) :=
  ⟨rfl, by decide⟩

/-- C6 (amended): with no active editor, `getUserContext` does not fail: it
returns a bundle with an empty snapshot, the accepted-suggestion log
untouched, and the recent-lines window *unchanged from its previous
contents* (stale, not emptied); the state is left exactly as it was. -/
theorem C6_amended_no_editor_bundle (st : CA.CAState) :
    CA.getUserContext st none =
      ({ recentLines := st.slidingWindow,
         acceptedSuggestions := st.acceptedSuggestions,
         surroundingContext := [] }, st) := rfl

/-- C7 (counterexample): the resolver is not idempotent — with prefix
`"def"` and completion `"def def foo"` the first application strips one
`def`, and a second application strips again. -/
theorem C7_counterexample_double_strip :
    CF.removeDuplicateKeywords (str "def") (str "def def foo") = str "def foo" ∧
    CF.removeDuplicateKeywords (str "def") (str "def foo") = str "foo" ∧
    str "foo" ≠ str "def foo" :=
  ⟨by decide, by decide, by decide⟩

/-- C8: one resolver call is the ordered choice of the three standalone
strategies — construct-signature, then partial-identifier, then
keyword-boundary — with the first produced strip final and the unchanged
input as default. -/
theorem C8_strategy_order (linePrefix completionText : Str) :
    CF.removeDuplicateKeywords linePrefix completionText =
      (((CF.strategyConstructSignature linePrefix completionText).or
        ((CF.strategyPartialWord linePrefix completionText).or
          (CF.strategyKeyword linePrefix completionText))).getD completionText) := by
  have h : CF.removeDuplicateKeywords linePrefix completionText =
      (match CF.strategyConstructSignature linePrefix completionText with
       | some r => r
       | none =>
         match CF.strategyPartialWord linePrefix completionText with
         | some r => r
         | none =>
           match CF.strategyKeyword linePrefix completionText with
           | some r => r
           | none => completionText) := rfl
  rw [h]
  cases CF.strategyConstructSignature linePrefix completionText <;>
    cases CF.strategyPartialWord linePrefix completionText <;>
      cases CF.strategyKeyword linePrefix completionText <;>
        simp [Option.or]

/-- C9: the anchor of the returned result is always the empty range at the
original cursor position, on every path of both formatter variants. -/
theorem C9_anchor_is_cursor (cfg : CF.IndentConfig) (document : CF.TextDocument)
    (position : Position) (completionText : Str) :
    ((CF.formatCompletion cfg document position completionText).rangeStart = position ∧
     (CF.formatCompletion cfg document position completionText).rangeEnd = position) ∧
    ((CFSimple.formatCompletion cfg document position completionText).rangeStart = position ∧
     (CFSimple.formatCompletion cfg document position completionText).rangeEnd = position) := by
  constructor
  · constructor <;> (rw [formatCompletion_eq_combined]; split <;> rfl)
  · rcases cfsimple_formatCompletion_cases cfg document position completionText with h | ⟨ind, h⟩ <;>
      rw [h] <;> exact ⟨rfl, rfl⟩

/-- C10: on the break path the full variant's `formatWithRule` always
returns a newline, the computed indentation, then the completion with its
leading whitespace removed; and every break the reduced variant emits has
that same shape. -/
theorem C10_break_path_trims_leading_whitespace :
    (∀ (cfg : CF.IndentConfig) (rule : CF.LineBreakRule) (position : Position)
        (completionText currentIndentation : Str),
      rule.shouldBreak = true →
      CF.formatWithRule cfg rule position completionText currentIndentation =
        { text := '\n' :: ((if rule.indentNextLine then
              CF.increaseIndentation cfg currentIndentation else currentIndentation)
            ++ trimLeft completionText),
          rangeStart := position, rangeEnd := position }) ∧
    (∀ (cfg : CF.IndentConfig) (document : CF.TextDocument) (position : Position)
        (completionText : Str),
      (CFSimple.formatCompletion cfg document position completionText).text = completionText ∨
      ∃ ind, (CFSimple.formatCompletion cfg document position completionText).text
          = '\n' :: (ind ++ trimLeft completionText)) := by
  constructor
  · intro cfg rule position completionText currentIndentation h
    simp only [CF.formatWithRule, h, if_true]
  · intro cfg document position completionText
    rcases cfsimple_formatCompletion_cases cfg document position completionText with h | ⟨ind, h⟩
    · left; rw [h]
    · right; exact ⟨ind, by rw [h]⟩

/-- C10 (witness): the break-path shape applied to the import rule with a
completion carrying leading whitespace. -/
theorem C10_witness :
    CF.importRule.shouldBreak = true ∧
    CF.formatWithRule cfgDefault CF.importRule ⟨0, 0⟩ (str "  x") [] =
      { text := '\n' :: ((if CF.importRule.indentNextLine then
            CF.increaseIndentation cfgDefault [] else [])
          ++ trimLeft (str "  x")),
        rangeStart := ⟨0, 0⟩, rangeEnd := ⟨0, 0⟩ } :=
  ⟨by decide,
   C10_break_path_trims_leading_whitespace.1 cfgDefault CF.importRule ⟨0, 0⟩
     (str "  x") [] (by decide)⟩

theorem extractLoop_concatNl (lines : List Str) :
    ∀ (k a : Nat), a + k < lines.length →
      extractLoop lines 0 a 0 k = concatNl ((lines.drop a).take k) := by
  intro k
  induction k with
  | zero =>
    intro a _
    simp [extractLoop, concatNl]
  | succ k ih =>
    intro a h
    have ha : a < lines.length := by omega
    rw [extractLoop, List.drop_zero, List.getD_eq_getElem lines [] ha,
      List.drop_eq_getElem_cons ha, List.take_succ_cons, concatNl,
      ih (a + 1) (by omega)]

theorem extractLoop_joinNl (lines : List Str) :
    ∀ (k a : Nat), a + k + 1 = lines.length →
      extractLoop lines ((lines.getD (lines.length - 1) []).length) a 0 k
        = joinNl (lines.drop a) := by
  intro k
  induction k with
  | zero =>
    intro a h
    have ha : a < lines.length := by omega
    have ha' : a = lines.length - 1 := by omega
    subst ha'
    rw [extractLoop, List.drop_zero, Nat.sub_zero,
      List.getD_eq_getElem lines [] ha, List.take_length,
      List.drop_eq_getElem_cons ha]
    have h2 : lines.length - 1 + 1 = lines.length := by omega
    rw [h2, List.drop_length]
    rfl
  | succ k ih =>
    intro a h
    have ha : a < lines.length := by omega
    have hne : lines.drop (a + 1) ≠ [] := by
      intro hnil
      have := congrArg List.length hnil
      rw [List.length_drop] at this
      simp at this
      omega
    rw [extractLoop, List.drop_zero, ih (a + 1) (by omega),
      List.getD_eq_getElem lines [] ha, List.drop_eq_getElem_cons ha,
      joinNl_cons_of_ne_nil _ _ hne]

/-- C5: for every document text and every cursor line (in range or not), the
neighborhood snapshot is exactly the text spanning the clipped line range
`[max(0, c−25), min(T, c+25))`, and its computation never fails. -/
theorem C5_snapshot_spans_clipped_range (e : CA.Editor) :
    CA.getSurroundingContext (some e) =
      lineSpanText (splitLines e.text) (e.cursorLine - 25)
        (min (splitLines e.text).length (e.cursorLine + 25)) := by
  have hne : splitLines e.text ≠ [] := splitLines_ne_nil e.text
  have hT : 0 < (splitLines e.text).length := List.length_pos.mpr hne
  simp only [CA.getSurroundingContext]
  set lines := splitLines e.text with hlines
  set a := e.cursorLine - 25 with hadef
  set b := min lines.length (e.cursorLine + 25) with hbdef
  rw [getTextRange]
  by_cases hb : b < lines.length
  · have hab : a ≤ b := by omega
    have hca : clampPos lines a 0 = (a, 0) := by
      rw [clampPos, if_neg (by omega)]
      simp
    have hcb : clampPos lines b 0 = (b, 0) := by
      rw [clampPos, if_neg (by omega)]
      simp
    rw [hca, hcb]
    simp only
    rw [extractLoop_concatNl lines (b - a) a (by omega)]
    rw [lineSpanText, if_pos hb]
  · have hbeq : b = lines.length := by omega
    by_cases ha : a < lines.length
    · have hca : clampPos lines a 0 = (a, 0) := by
        rw [clampPos, if_neg (by omega)]
        simp
      have hcb : clampPos lines b 0 =
          (lines.length - 1, (lines.getD (lines.length - 1) []).length) := by
        rw [clampPos, if_pos (by omega)]
      rw [hca, hcb]
      simp only
      rw [extractLoop_joinNl lines (lines.length - 1 - a) a (by omega)]
      rw [lineSpanText, if_neg (by omega)]
      have htake : (lines.drop a).take (b - a) = lines.drop a := by
        apply List.take_of_length_le
        rw [List.length_drop]
        omega
      rw [htake]
    · have hca : clampPos lines a 0 =
          (lines.length - 1, (lines.getD (lines.length - 1) []).length) := by
        rw [clampPos, if_pos (by omega)]
      have hcb : clampPos lines b 0 =
          (lines.length - 1, (lines.getD (lines.length - 1) []).length) := by
        rw [clampPos, if_pos (by omega)]
      rw [hca, hcb]
      simp only
      rw [Nat.sub_self, extractLoop, Nat.sub_self, List.take_zero]
      rw [lineSpanText, if_neg (by omega)]
      have hdrop : lines.drop a = [] := List.drop_eq_nil_of_le (by omega)
      rw [hdrop]
      simp [joinNl]

theorem jsTrim_isInfix (c : Str) : jsTrim c <:+: c := by
  have h1 : c.dropWhile jsIsSpace <:+ c := List.dropWhile_suffix jsIsSpace
  have h2 : (c.dropWhile jsIsSpace).reverse.dropWhile jsIsSpace
      <:+ (c.dropWhile jsIsSpace).reverse := List.dropWhile_suffix jsIsSpace
  have h3 : jsTrim c <+: c.dropWhile jsIsSpace := by
    have h4 := List.reverse_prefix.mpr h2
    rw [List.reverse_reverse] at h4
    rw [jsTrim]
    exact h4
  exact h3.isInfix.trans h1.isInfix

theorem strategy1_shape (linePrefix completionText r : Str)
    (h : CF.strategyConstructSignature linePrefix completionText = some r) :
    ∃ n, r = trimLeft ((jsTrim completionText).drop n) := by
  simp only [CF.strategyConstructSignature] at h
  obtain ⟨entry, -, h1⟩ := List.exists_of_findSome?_eq_some h
  obtain ⟨pat, -, h2⟩ := List.exists_of_findSome?_eq_some h1
  repeat' split at h2
  all_goals first
    | (cases h2; exact ⟨_, rfl⟩)
    | cases h2

theorem strategy2_shape (linePrefix completionText r : Str)
    (h : CF.strategyPartialWord linePrefix completionText = some r) :
    ∃ n, r = (jsTrim completionText).drop n := by
  simp only [CF.strategyPartialWord] at h
  repeat' split at h
  all_goals first
    | (cases h; exact ⟨_, rfl⟩)
    | cases h

theorem strategy3_shape (linePrefix completionText r : Str)
    (h : CF.strategyKeyword linePrefix completionText = some r) :
    ∃ n, r = jsTrim ((jsTrim completionText).drop n) := by
  simp only [CF.strategyKeyword] at h
  obtain ⟨kw, -, hkw⟩ := List.exists_of_findSome?_eq_some h
  repeat' split at hkw
  all_goals first
    | (cases hkw; exact ⟨_, rfl⟩)
    | cases hkw

theorem infix_trim_length_lt (completionText r : Str)
    (hinf : r <:+: jsTrim completionText) (hne : r ≠ completionText) :
    r.length < completionText.length := by
  have h1 : r.length ≤ (jsTrim completionText).length := hinf.length_le
  have h2 : (jsTrim completionText).length ≤ completionText.length :=
    (jsTrim_isInfix completionText).length_le
  rcases Nat.lt_or_ge r.length completionText.length with h | h
  · exact h
  · have e1 : (jsTrim completionText).length = completionText.length := by omega
    have e2 : r.length = (jsTrim completionText).length := by omega
    have he1 : jsTrim completionText = completionText :=
      (jsTrim_isInfix completionText).eq_of_length e1
    have he2 : r = jsTrim completionText := hinf.eq_of_length e2
    exact absurd (by rw [he2, he1]) hne

/-- C7 (amended): the resolver is not idempotent — a second application can
strip again (the counterexample above) — but every application makes strict
progress: it either returns its completion argument unchanged, or returns a
strictly shorter string (always an infix of the trimmed completion), so
repeated application cannot strip indefinitely and reaches a fixed point. -/
theorem C7_amended_strict_progress (linePrefix completionText : Str) :
    CF.removeDuplicateKeywords linePrefix completionText = completionText ∨
      (CF.removeDuplicateKeywords linePrefix completionText).length
        < completionText.length := by
  by_cases h : CF.removeDuplicateKeywords linePrefix completionText = completionText
  · left
    exact h
  · right
    have hd : CF.removeDuplicateKeywords linePrefix completionText =
        (match CF.strategyConstructSignature linePrefix completionText with
         | some r => r
         | none =>
           match CF.strategyPartialWord linePrefix completionText with
           | some r => r
           | none =>
             match CF.strategyKeyword linePrefix completionText with
             | some r => r
             | none => completionText) := rfl
    cases hs1 : CF.strategyConstructSignature linePrefix completionText with
    | some r =>
      have hr : CF.removeDuplicateKeywords linePrefix completionText = r := by
        rw [hd, hs1]
      obtain ⟨n, hn⟩ := strategy1_shape linePrefix completionText r hs1
      have hinf : r <:+: jsTrim completionText := by
        rw [hn]
        exact ((List.dropWhile_suffix jsIsSpace).trans
          (List.drop_suffix n (jsTrim completionText))).isInfix
      rw [hr]
      exact infix_trim_length_lt completionText r hinf (by rw [← hr]; exact h)
    | none =>
      cases hs2 : CF.strategyPartialWord linePrefix completionText with
      | some r =>
        have hr : CF.removeDuplicateKeywords linePrefix completionText = r := by
          rw [hd, hs1, hs2]
        obtain ⟨n, hn⟩ := strategy2_shape linePrefix completionText r hs2
        have hinf : r <:+: jsTrim completionText := by
          rw [hn]
          exact (List.drop_suffix n (jsTrim completionText)).isInfix
        rw [hr]
        exact infix_trim_length_lt completionText r hinf (by rw [← hr]; exact h)
      | none =>
        cases hs3 : CF.strategyKeyword linePrefix completionText with
        | some r =>
          have hr : CF.removeDuplicateKeywords linePrefix completionText = r := by
            rw [hd, hs1, hs2, hs3]
          obtain ⟨n, hn⟩ := strategy3_shape linePrefix completionText r hs3
          have hinf : r <:+: jsTrim completionText := by
            rw [hn]
            exact (jsTrim_isInfix ((jsTrim completionText).drop n)).trans
              (List.drop_suffix n (jsTrim completionText)).isInfix
          rw [hr]
          exact infix_trim_length_lt completionText r hinf (by rw [← hr]; exact h)
        | none =>
          exact absurd (by rw [hd, hs1, hs2, hs3]) h
